import Mathlib

/-!
Verification development for the interactive geometry annotation and
measurement subsystem of a Leaflet-based map component
(`src/components/Leaflet.jsx`).

The embedding models:

* `parseCoordinates` / `parseDMS` — the coordinate string parsers.  The
  JavaScript regular expressions are embedded as backtracking parsers over
  `List Char` whose alternative order reproduces the (leftmost, greedy,
  backtracking) match order of the JS regex engine.  Numeric values are
  modelled as rationals (`ℚ`): `parseFloat`/`parseInt` applied to the
  captured substrings are embedded as exact rational readers of the
  decimal literals the captures can be.
* `calculateDistance`, `calculatePolygonArea`, `calculateCircleArea`,
  `calculateRectangleArea`, `calculateArea` — the measurement functions.
  The point-to-point distance (`L.LatLng.distanceTo`) and
  `L.GeometryUtil.geodesicArea` collaborators are modelled from the spec
  (haversine distance on a sphere of Earth's mean radius, and the
  planimeter-style spherical area formula) since their code is the map
  library's, not this repository's.
* the `L.Draw.Event.CREATED` and `layerremove` handlers of
  `initDrawTools`, and the per-kind draw tool configuration.
-/

/-! ## Character classes and numeric readers -/

/-- JS regex `\d`: an ASCII decimal digit. -/
def isDig (c : Char) : Bool := c.isDigit

/-- JS regex `\s`: whitespace (the cases relevant to coordinate input). -/
def isWs (c : Char) : Bool := c = ' ' || c = '\t' || c = '\n' || c = '\r'

/-- Value of a digit character. -/
def digVal (c : Char) : ℕ := c.toNat - 48

/-- Value of a (most-significant-first) digit string, as `parseInt` reads it. -/
def digitsVal (cs : List Char) : ℕ := cs.foldl (fun a c => 10 * a + digVal c) 0

/-- Unsigned part of `parseFloat`: leading digits, then an optional `.` and
fraction digits, read exactly (as a rational). -/
def parseUF (cs : List Char) : ℚ :=
  let ds := cs.takeWhile isDig
  let rest := cs.drop ds.length
  let fs := match rest with
    | '.' :: t => t.takeWhile isDig
    | _ => []
  (digitsVal ds : ℚ) + (digitsVal fs : ℚ) / 10 ^ fs.length

/-- Exact-rational embedding of `parseFloat`, for the decimal literals
(`-?\d+\.?\d*` and `\d+(\.\d+)?`) that the parser ever passes to it. -/
def parseFloatQ (cs : List Char) : ℚ :=
  match cs with
  | '-' :: t => -(parseUF t)
  | _ => parseUF cs

/-! ## A backtracking matcher for the coordinate regexes

A parser returns the list of all (result, remaining input) pairs in the
priority order in which a backtracking regex engine would produce them:
the head of the list is the match the JS engine reports. -/

/-- Backtracking parsers over character lists; results are ordered by
regex-engine priority (greedy first, earlier alternatives first). -/
def M (α : Type) := List Char → List (α × List Char)

/-- Parser returning a fixed value without consuming input. -/
def mpure {α : Type} (a : α) : M α := fun cs => [(a, cs)]

/-- Sequencing; `flatMap` preserves the backtracking priority order. -/
def mbind {α β : Type} (m : M α) (f : α → M β) : M β :=
  fun cs => (m cs).flatMap (fun x => f x.1 x.2)

/-- Single character satisfying a predicate (a regex character class). -/
def mchar (p : Char → Bool) : M Char := fun cs =>
  match cs with
  | [] => []
  | c :: rest => if p c then [(c, rest)] else []

/-- Greedy optional element (`X?`): try the present case first. -/
def mopt {α : Type} (m : M α) : M (Option α) := fun cs =>
  (m cs).map (fun x => (some x.1, x.2)) ++ [(none, cs)]

/-- the list `[n, n-1, ..., 1]` (consumption lengths for a greedy `+`). -/
def declist1 : ℕ → List ℕ
  | 0 => []
  | n + 1 => (n + 1) :: declist1 n

/-- the list `[n, n-1, ..., 0]` (consumption lengths for a greedy `*`). -/
def declist0 : ℕ → List ℕ
  | 0 => [0]
  | n + 1 => (n + 1) :: declist0 n

/-- Greedy `\d+` with backtracking: longest digit prefix first. -/
def mdigits1 : M (List Char) := fun cs =>
  let run := cs.takeWhile isDig
  (declist1 run.length).map (fun n => (run.take n, run.drop n ++ cs.drop run.length))

/-- Greedy `\d*` with backtracking: longest digit prefix first, down to zero. -/
def mdigits0 : M (List Char) := fun cs =>
  let run := cs.takeWhile isDig
  (declist0 run.length).map (fun n => (run.take n, run.drop n ++ cs.drop run.length))

/-- Greedy `\s*` with backtracking, returning the consumed whitespace. -/
def mspaces : M (List Char) := fun cs =>
  let run := cs.takeWhile isWs
  (declist0 run.length).map (fun n => (run.take n, run.drop n ++ cs.drop run.length))

/-- Run a `^...$`-anchored regex: the reported match is the first
(highest-priority) parse that consumes the whole input. -/
def mrun {α : Type} (m : M α) (cs : List Char) : Option α :=
  ((m cs).find? (fun x => x.2.isEmpty)).map (fun x => x.1)

/-- Run an unanchored regex search: try each start position left to right
and report the first (highest-priority) match found. -/
def msearch {α : Type} (m : M α) : List Char → Option α
  | [] => ((m []).head?).map (fun x => x.1)
  | c :: cs =>
    match (m (c :: cs)).head? with
    | some x => some x.1
    | none => msearch m cs

/-- List of a matched optional character (its contribution to a capture). -/
def optList (o : Option Char) : List Char :=
  match o with
  | some c => [c]
  | none => []

/-! ## The two grammars of `parseCoordinates` -/

/-- Capture of `(-?\d+\.?\d*)`: one decimal number of the decimal-pair
grammar, returned as the exact consumed text. -/
def numCap : M (List Char) :=
  mbind (mopt (mchar (fun c => c = '-'))) fun sg =>
  mbind mdigits1 fun ds =>
  mbind (mopt (mchar (fun c => c = '.'))) fun dt =>
  mbind mdigits0 fun fs =>
  mpure (optList sg ++ ds ++ optList dt ++ fs)

/-- The decimal-pair regex `^(-?\d+\.?\d*),\s*(-?\d+\.?\d*)$`
(anchoring is applied by `mrun`), capturing both numbers. -/
def decPairM : M (List Char × List Char) :=
  mbind numCap fun c1 =>
  mbind (mchar (fun c => c = ',')) fun _ =>
  mbind mspaces fun _ =>
  mbind numCap fun c2 =>
  mpure (c1, c2)

/-- Capture of `(\.\d+)` inside a DMS token. -/
def fracCap : M (List Char) :=
  mbind (mchar (fun c => c = '.')) fun _ =>
  mbind mdigits1 fun f =>
  mpure ('.' :: f)

/-- One DMS token `(-?\d+°\s*\d+'?\s*\d+(\.\d+)?"?\s*[NS])` of the outer
DMS-pair regex (`hemi` selects `[NS]` or `[EW]`), capturing the token text. -/
def dmsTok (hemi : Char → Bool) : M (List Char) :=
  mbind (mopt (mchar (fun c => c = '-'))) fun sg =>
  mbind mdigits1 fun d1 =>
  mbind (mchar (fun c => c = '°')) fun _ =>
  mbind mspaces fun s1 =>
  mbind mdigits1 fun d2 =>
  mbind (mopt (mchar (fun c => c = '\''))) fun q1 =>
  mbind mspaces fun s2 =>
  mbind mdigits1 fun d3 =>
  mbind (mopt fracCap) fun fr =>
  mbind (mopt (mchar (fun c => c = '"'))) fun q2 =>
  mbind mspaces fun s3 =>
  mbind (mchar hemi) fun h =>
  mpure (optList sg ++ d1 ++ ['°'] ++ s1 ++ d2 ++ optList q1 ++ s2 ++ d3 ++
    fr.getD [] ++ optList q2 ++ s3 ++ [h])

/-- The DMS-pair regex
`^(-?\d+°\s*\d+'?\s*\d+(\.\d+)?"?\s*[NS])\s*,?\s*(-?\d+°\s*\d+'?\s*\d+(\.\d+)?"?\s*[EW])$`,
capturing the two tokens (groups 1 and 3). -/
def dmsPairM : M (List Char × List Char) :=
  mbind (dmsTok (fun c => c = 'N' || c = 'S')) fun cap1 =>
  mbind mspaces fun _ =>
  mbind (mopt (mchar (fun c => c = ','))) fun _ =>
  mbind mspaces fun _ =>
  mbind (dmsTok (fun c => c = 'E' || c = 'W')) fun cap3 =>
  mpure (cap1, cap3)

/-! ## `parseDMS` -/

/-- Case-insensitive `[NS]|[EW]` of the `parseDMS` token regex. -/
def isHemiLetter (c : Char) : Bool :=
  c = 'N' || c = 'S' || c = 'E' || c = 'W' ||
  c = 'n' || c = 's' || c = 'e' || c = 'w'

/-- Capture of `(\d+(\.\d+)?)` — the seconds group of `parseDMS`. -/
def secCap : M (List Char) :=
  mbind mdigits1 fun a =>
  mbind (mopt fracCap) fun fr =>
  mpure (a ++ fr.getD [])

/-- The unanchored, case-insensitive token regex of `parseDMS`:
`(\d+)°\s*(\d+)?'?\s*(\d+(\.\d+)?)?"?\s*([NS]|[EW])` with `i` flag,
returning the captures of groups 1 (degrees), 2 (minutes), 3 (seconds)
and 5 (hemisphere letter). -/
def dmsPartsM : M (List Char × Option (List Char) × Option (List Char) × Char) :=
  mbind mdigits1 fun d =>
  mbind (mchar (fun c => c = '°')) fun _ =>
  mbind mspaces fun _ =>
  mbind (mopt mdigits1) fun mi =>
  mbind (mopt (mchar (fun c => c = '\''))) fun _ =>
  mbind mspaces fun _ =>
  mbind (mopt secCap) fun se =>
  mbind (mopt (mchar (fun c => c = '"'))) fun _ =>
  mbind mspaces fun _ =>
  mbind (mchar isHemiLetter) fun h =>
  mpure (d, mi, se, h)

/-- `parseDMS` on a character list: match the token regex, then
`degrees + minutes/60 + seconds/3600`, negated for hemisphere S or W;
missing minutes or seconds are 0 (`parts[2] ? ... : 0`). -/
def parseDMSL (cs : List Char) : Option ℚ :=
  match msearch dmsPartsM cs with
  | none => none
  | some (d, mi, se, h) =>
    let degrees : ℚ := digitsVal d
    let minutes : ℚ := match mi with
      | some m => digitsVal m
      | none => 0
    let seconds : ℚ := match se with
      | some sc => parseFloatQ sc
      | none => 0
    let direction := h.toUpper
    let dd := degrees + minutes / 60 + seconds / 3600
    some (if direction = 'S' || direction = 'W' then -dd else dd)

/-- `parseDMS` of the source, on strings. -/
def parseDMS (s : String) : Option ℚ := parseDMSL s.data

/-! ## `parseCoordinates` -/

/-- A parsed coordinate object `{ lat, lng }`.  The fields are `Option ℚ`
because the DMS branch stores the raw results of `parseDMS`, which are
`null`-able values in the source. -/
structure Coordinate where
  lat : Option ℚ
  lng : Option ℚ
deriving DecidableEq, Repr

/-- `parseCoordinates` on a character list: try the decimal-pair regex
first, then the DMS-pair regex; on a decimal match apply `parseFloat` to
the two captures, on a DMS match apply `parseDMS` to captures 1 and 3;
otherwise return `null`. -/
def parseCoordinatesL (cs : List Char) : Option Coordinate :=
  match mrun decPairM cs with
  | some (c1, c2) => some ⟨some (parseFloatQ c1), some (parseFloatQ c2)⟩
  | none =>
    match mrun dmsPairM cs with
    | some (cap1, cap3) => some ⟨parseDMSL cap1, parseDMSL cap3⟩
    | none => none

/-- `parseCoordinates` of the source, on strings. -/
def parseCoordinates (s : String) : Option Coordinate := parseCoordinatesL s.data

/-! ## Geodesic measurement

`L.LatLng.distanceTo` and `L.GeometryUtil.geodesicArea` are collaborators
from the map library, not code of this repository; they are modelled from
the spec below. -/

/-- A map point `{ lat, lng }` with real-valued coordinates. -/
structure LatLng where
  lat : ℝ
  lng : ℝ

/-- Math.atan2 for the quadrants reachable from the haversine formula
(both arguments are square roots, hence nonnegative). -/
noncomputable def atan2 (y x : ℝ) : ℝ :=
  if 0 < x then Real.arctan (y / x)
  else if x < 0 then
    (if 0 ≤ y then Real.arctan (y / x) + Real.pi else Real.arctan (y / x) - Real.pi)
  else
    (if 0 < y then Real.pi / 2 else if y < 0 then -(Real.pi / 2) else 0)

/-- Modelled from the spec: the point-to-point distance collaborator
(`latlng1.distanceTo(latlng2)`), "a standard geodesic point-to-point
distance formula (haversine on a sphere of Earth's mean radius)" —
the map library's spherical distance with R = 6371000 m. -/
noncomputable def distanceTo (p q : LatLng) : ℝ :=
  let rad := Real.pi / 180
  let lat1 := p.lat * rad
  let lat2 := q.lat * rad
  let sinDLat := Real.sin ((q.lat - p.lat) * rad / 2)
  let sinDLon := Real.sin ((q.lng - p.lng) * rad / 2)
  let a := sinDLat * sinDLat + Real.cos lat1 * Real.cos lat2 * (sinDLon * sinDLon)
  let c := 2 * atan2 (Real.sqrt a) (Real.sqrt (1 - a))
  6371000 * c

/-- Origin point, used as the (never-read) out-of-bounds default of list
indexing in the loop embeddings. -/
def latLng0 : LatLng := ⟨0, 0⟩

/-- `calculateDistance`: starting from 0, add
`latlngs[i-1].distanceTo(latlngs[i])` for `i = 1 .. latlngs.length - 1`
in loop order. -/
noncomputable def calculateDistance (latlngs : List LatLng) : ℝ :=
  (List.range' 1 (latlngs.length - 1)).foldl
    (fun acc i => acc + distanceTo (latlngs.getD (i - 1) latLng0) (latlngs.getD i latLng0))
    0

/-- Modelled from the spec: the polygon-area collaborator
(`L.GeometryUtil.geodesicArea`), the "planimeter-style algorithm" over the
implicitly closed ring whose "result is always non-negative regardless of
point winding order" — the library's spherical-excess style sum over
consecutive point pairs (indices mod n), scaled by the squared WGS84
equatorial radius, of which the absolute value is returned; rings of
fewer than 3 points yield 0. -/
noncomputable def geodesicArea (latLngs : List LatLng) : ℝ :=
  let pointsCount := latLngs.length
  let d2r := Real.pi / 180
  let area :=
    if 2 < pointsCount then
      ((List.range pointsCount).foldl
        (fun area i =>
          let p1 := latLngs.getD i latLng0
          let p2 := latLngs.getD ((i + 1) % pointsCount) latLng0
          area + ((p2.lng - p1.lng) * d2r) *
            (2 + Real.sin (p1.lat * d2r) + Real.sin (p2.lat * d2r)))
        0) * 6378137.0 * 6378137.0 / 2.0
    else 0
  |area|

/-- `calculatePolygonArea`: geodesic area of the polygon's first ring
(`layer.getLatLngs()[0]`). -/
noncomputable def calculatePolygonArea (rings : List (List LatLng)) : ℝ :=
  geodesicArea (rings.getD 0 [])

/-- `calculateCircleArea`: planar `π · r²` from the circle's radius in
meters. -/
noncomputable def calculateCircleArea (radius : ℝ) : ℝ :=
  Real.pi * radius * radius

/-- `calculateRectangleArea`: the geodesic area of the four-point ring
`[northEast, (northEast.lat, southWest.lng), southWest, (southWest.lat, northEast.lng)]`
built from the rectangle's bounds corners. -/
noncomputable def calculateRectangleArea (northEast southWest : LatLng) : ℝ :=
  geodesicArea
    [northEast,
     ⟨northEast.lat, southWest.lng⟩,
     southWest,
     ⟨southWest.lat, northEast.lng⟩]

/-- The ring of the derived quadrilateral as the spec words it: "the two
corners plus the two corners formed by mixing latitude/longitude
components". -/
def specRectangleRing (northEast southWest : LatLng) : List LatLng :=
  [northEast,
   ⟨northEast.lat, southWest.lng⟩,
   southWest,
   ⟨southWest.lat, northEast.lng⟩]

/-! ## Shape lifecycle: draw-tool configuration and event handlers -/

/-- The tool-configuration flags of the component (`enableDraw`,
`enableMeasure` props). -/
structure DrawConfig where
  enableDraw : Bool
  enableMeasure : Bool
deriving DecidableEq

/-- The shape kinds of the draw toolbar (`event.layerType` values). -/
inductive LayerKind
  | polyline
  | polygon
  | rectangle
  | circle
  | marker
  | circlemarker
deriving DecidableEq, Repr

/-- The per-kind draw options of `initDrawTools`: a kind's tool is an
options object (enabled) or `false` (disabled).  `polyline` and `polygon`
are gated by `enableMeasure`; `circle`, `marker` and `rectangle` by
`enableDraw`; `circlemarker` is always `false`. -/
def drawToolEnabled (c : DrawConfig) : LayerKind → Bool
  | .polyline => c.enableMeasure
  | .polygon => c.enableMeasure
  | .rectangle => c.enableDraw
  | .circle => c.enableDraw
  | .marker => c.enableDraw
  | .circlemarker => false

/-- `initDrawTools` returns without installing any toolbar when both
`enableDraw` and `enableMeasure` are off. -/
def drawControlTools (c : DrawConfig) : Option (LayerKind → Bool) :=
  if !c.enableDraw && !c.enableMeasure then none else some (drawToolEnabled c)

/-- A drawn layer with its geometry, as the CREATED handler receives it. -/
inductive Layer
  | polyline (latlngs : List LatLng)
  | polygon (rings : List (List LatLng))
  | rectangle (northEast southWest : LatLng)
  | circle (center : LatLng) (radius : ℝ)
  | marker (pos : LatLng)

/-- The `event.layerType` of a created layer. -/
def layerKind : Layer → LayerKind
  | .polyline _ => .polyline
  | .polygon _ => .polygon
  | .rectangle _ _ => .rectangle
  | .circle _ _ => .circle
  | .marker _ => .marker

/-- `calculateArea`: dispatch on `layerType` — polygon and rectangle use
the geodesic polygon area, circle the planar area; any other kind warns
and returns 0. -/
noncomputable def calculateArea (layer : Layer) : ℝ :=
  match layer with
  | .polygon rings => calculatePolygonArea rings
  | .circle _ radius => calculateCircleArea radius
  | .rectangle ne sw => calculateRectangleArea ne sw
  | _ => 0

/-- Kind of a measurement annotation. -/
inductive MeasureKind
  | distance
  | area
deriving DecidableEq, Repr

/-- The measurement annotation the CREATED handler binds as a popup:
inside the `enableMeasure || circle || rectangle` guard, polylines get a
distance, polygons/rectangles/circles an area, and any other kind leaves
`measurementText` empty so no popup is bound. -/
noncomputable def createdMeasurement (enableMeasure : Bool) (layer : Layer) :
    Option (MeasureKind × ℝ) :=
  if enableMeasure || layerKind layer = .circle || layerKind layer = .rectangle then
    match layer with
    | .polyline latlngs => some (.distance, calculateDistance latlngs)
    | .polygon _ => some (.area, calculateArea layer)
    | .rectangle _ _ => some (.area, calculateArea layer)
    | .circle _ _ => some (.area, calculateArea layer)
    | .marker _ => none
  else none

/-- The CREATED handler: the layer is always added to `drawnItems`, with
its (at most one) measurement popup computed at commit time. -/
noncomputable def createdHandler (enableMeasure : Bool)
    (drawnItems : List (Layer × Option (MeasureKind × ℝ))) (layer : Layer) :
    List (Layer × Option (MeasureKind × ℝ)) :=
  drawnItems ++ [(layer, createdMeasurement enableMeasure layer)]

/-! ## Shape removal (`layerremove` handler) -/

/-- Popup state of a layer (`layer._popup`). -/
structure PopupState where
  isOpen : Bool
deriving DecidableEq, Repr

/-- The per-layer and map state the `layerremove` handler touches. -/
structure RemovalState where
  popup : Option PopupState
  onMap : Bool
  listenersActive : Bool
deriving DecidableEq, Repr

/-- The observable operations the `layerremove` handler performs, in
program order. -/
inductive RemovalAction
  | popupClose
  | popupDetach
  | layerRemoveFromMap
  | listenersOff
deriving DecidableEq, Repr

/-- The `layerremove` handler: first close and detach the popup (when
present) and null the reference, then remove the layer from the map (when
still there), then clear all event listeners. -/
def layerremoveHandler (st : RemovalState) : RemovalState × List RemovalAction :=
  let popupActs : List RemovalAction :=
    match st.popup with
    | some _ => [.popupClose, .popupDetach]
    | none => []
  let st1 : RemovalState := { st with popup := none }
  let mapActs : List RemovalAction := if st1.onMap then [.layerRemoveFromMap] else []
  let st2 : RemovalState := { st1 with onMap := false }
  let st3 : RemovalState := { st2 with listenersActive := false }
  (st3, popupActs ++ mapActs ++ [.listenersOff])

/-- Check that no popup action occurs after the map-removal action in a
trace. -/
def popupActsPrecedeRemoval : List RemovalAction → Bool
  | [] => true
  | .layerRemoveFromMap :: rest =>
    rest.all (fun a => !(a = .popupClose || a = .popupDetach)) &&
      popupActsPrecedeRemoval rest
  | _ :: rest => popupActsPrecedeRemoval rest

/-! ## Matcher evaluation lemmas -/

/-- the head of `l2` (if any) falsifies `p`. -/
def headNot (p : Char → Bool) (l : List Char) : Prop :=
  ∀ c, l.head? = some c → p c = false

theorem headNot_nil {p : Char → Bool} : headNot p [] := by
  intro c h
  simp at h

theorem headNot_cons {p : Char → Bool} {c : Char} {l : List Char}
    (h : p c = false) : headNot p (c :: l) := by
  intro d hd
  simp at hd
  exact hd ▸ h

theorem takeWhile_append_of_all {p : Char → Bool} {l1 l2 : List Char}
    (h1 : ∀ c ∈ l1, p c = true) (h2 : headNot p l2) :
    (l1 ++ l2).takeWhile p = l1 := by
  induction l1 with
  | nil =>
    cases l2 with
    | nil => rfl
    | cons c t => simp [List.takeWhile_cons, h2 c rfl]
  | cons a t ih =>
    have ha : p a = true := h1 a (by simp)
    simp only [List.cons_append, List.takeWhile_cons, ha, if_true]
    rw [ih (fun c hc => h1 c (by simp [hc]))]

theorem takeWhile_append_drop (p : Char → Bool) (l : List Char) :
    l.takeWhile p ++ l.drop (l.takeWhile p).length = l := by
  induction l with
  | nil => rfl
  | cons a t ih =>
    by_cases h : p a = true
    · simp only [List.takeWhile_cons, h, if_true, List.length_cons, List.drop_succ_cons,
        List.cons_append, List.cons.injEq, true_and]
      exact ih
    · simp only [List.takeWhile_cons, h, Bool.false_eq_true, if_false, List.length_nil,
        List.drop_zero, List.nil_append]

theorem mchar_cons_pos {p : Char → Bool} {c : Char} (rest : List Char)
    (h : p c = true) : mchar p (c :: rest) = [(c, rest)] := by
  simp [mchar, h]

theorem mchar_cons_neg {p : Char → Bool} {c : Char} (rest : List Char)
    (h : p c = false) : mchar p (c :: rest) = [] := by
  simp [mchar, h]

theorem mchar_nil {p : Char → Bool} : mchar p [] = [] := rfl

theorem mchar_empty_of_headNot {p : Char → Bool} {cs : List Char}
    (h : headNot p cs) : mchar p cs = [] := by
  cases cs with
  | nil => rfl
  | cons c t => exact mchar_cons_neg t (h c rfl)

theorem declist0_cons (n : ℕ) : ∃ t, declist0 n = n :: t := by
  cases n with
  | zero => exact ⟨[], rfl⟩
  | succ k => exact ⟨declist0 k, rfl⟩

theorem mdigits1_eval {ds rest : List Char}
    (h1 : ∀ c ∈ ds, isDig c = true) (h2 : headNot isDig rest) (h3 : ds ≠ []) :
    ∃ t, mdigits1 (ds ++ rest) = (ds, rest) :: t := by
  have hrun : (ds ++ rest).takeWhile isDig = ds := takeWhile_append_of_all h1 h2
  cases ds with
  | nil => exact absurd rfl h3
  | cons d ds' =>
    refine ⟨(declist1 (d :: ds').length).tail.map
      (fun n => ((d :: ds').take n, (d :: ds').drop n ++ (d :: ds' ++ rest).drop (d :: ds').length)), ?_⟩
    simp only [mdigits1, hrun]
    have hlen : (d :: ds').length = ds'.length + 1 := rfl
    rw [hlen]
    simp only [declist1, List.map_cons]
    rw [← hlen]
    simp [List.take_length, List.drop_length, List.drop_left]

theorem mdigits0_eval {ds rest : List Char}
    (h1 : ∀ c ∈ ds, isDig c = true) (h2 : headNot isDig rest) :
    ∃ t, mdigits0 (ds ++ rest) = (ds, rest) :: t := by
  have hrun : (ds ++ rest).takeWhile isDig = ds := takeWhile_append_of_all h1 h2
  obtain ⟨t0, ht0⟩ := declist0_cons ds.length
  refine ⟨t0.map (fun n => (ds.take n, ds.drop n ++ (ds ++ rest).drop ds.length)), ?_⟩
  simp only [mdigits0, hrun, ht0, List.map_cons]
  simp [List.take_length, List.drop_length, List.drop_left]

theorem mspaces_eval {ws rest : List Char}
    (h1 : ∀ c ∈ ws, isWs c = true) (h2 : headNot isWs rest) :
    ∃ t, mspaces (ws ++ rest) = (ws, rest) :: t := by
  have hrun : (ws ++ rest).takeWhile isWs = ws := takeWhile_append_of_all h1 h2
  obtain ⟨t0, ht0⟩ := declist0_cons ws.length
  refine ⟨t0.map (fun n => (ws.take n, ws.drop n ++ (ws ++ rest).drop ws.length)), ?_⟩
  simp only [mspaces, hrun, ht0, List.map_cons]
  simp [List.take_length, List.drop_length, List.drop_left]

theorem mopt_eval_some {α : Type} {m : M α} {cs : List Char} {a : α} {r : List Char}
    {t : List (α × List Char)} (h : m cs = (a, r) :: t) :
    ∃ t2, mopt m cs = (some a, r) :: t2 := by
  refine ⟨t.map (fun x => (some x.1, x.2)) ++ [(none, cs)], ?_⟩
  simp [mopt, h]

theorem mopt_eval_none {α : Type} {m : M α} {cs : List Char} (h : m cs = []) :
    mopt m cs = [(none, cs)] := by
  simp [mopt, h]

theorem mpure_eval {α : Type} (a : α) (cs : List Char) : mpure a cs = [(a, cs)] := rfl

theorem mbind_eval {α β : Type} {m : M α} {f : α → M β} {cs : List Char}
    {a : α} {r : List Char} {t : List (α × List Char)}
    {b : β} {r2 : List Char} {t2 : List (β × List Char)}
    (h1 : m cs = (a, r) :: t) (h2 : f a r = (b, r2) :: t2) :
    ∃ t3, mbind m f cs = (b, r2) :: t3 := by
  refine ⟨t2 ++ t.flatMap (fun x => f x.1 x.2), ?_⟩
  simp only [mbind, h1, List.flatMap_cons, h2]
  rfl

theorem mrun_eval {α : Type} {m : M α} {cs : List Char} {x : α}
    {t : List (α × List Char)} (h : m cs = (x, []) :: t) :
    mrun m cs = some x := by
  simp [mrun, h, List.find?_cons_of_pos]


/-! ## Character facts -/

theorem ws_not_dig {c : Char} (h : isWs c = true) : isDig c = false := by
  simp only [isWs, Bool.or_eq_true, decide_eq_true_eq] at h
  rcases h with ((h | h) | h) | h <;> subst h <;> decide

theorem dig_not_ws {c : Char} (h : isDig c = true) : isWs c = false := by
  cases hw : isWs c
  · rfl
  · rw [ws_not_dig hw] at h
    exact absurd h (by simp)

theorem dig_ne_minus {c : Char} (h : isDig c = true) : c ≠ '-' := by
  intro he
  subst he
  exact absurd h (by decide)

theorem dig_ne_dot {c : Char} (h : isDig c = true) : c ≠ '.' := by
  intro he
  subst he
  exact absurd h (by decide)

theorem takeWhile_all {p : Char → Bool} {l : List Char}
    (h : ∀ c ∈ l, p c = true) : l.takeWhile p = l := by
  have := takeWhile_append_of_all h (headNot_nil (p := p))
  simpa using this

/-! ## Decimal literals and their rendering -/

/-- A decimal literal of the `-?\d+\.?\d*` grammar: an optional minus
sign, a nonempty integer-digit part, an optional fraction part (possibly
with zero fraction digits, as in `"5."`). -/
structure DecLit where
  neg : Bool
  ip : List Char
  fp : Option (List Char)

/-- Well-formedness of a decimal literal: integer digits nonempty and all
digits, fraction digits all digits. -/
def DecLit.WF (a : DecLit) : Prop :=
  a.ip ≠ [] ∧ (∀ c ∈ a.ip, isDig c = true) ∧
    ∀ c ∈ a.fp.getD [], isDig c = true

/-- Text of the optional fraction part (dot included). -/
def tailOf (fp : Option (List Char)) : List Char :=
  match fp with
  | some fs => '.' :: fs
  | none => []

/-- Text of a decimal literal. -/
def DecLit.render (a : DecLit) : List Char :=
  (if a.neg then ['-'] else []) ++ a.ip ++ tailOf a.fp

/-- Exact rational value of a decimal literal. -/
def DecLit.val (a : DecLit) : ℚ :=
  (if a.neg then -1 else 1) *
    ((digitsVal a.ip : ℚ) + (digitsVal (a.fp.getD []) : ℚ) / 10 ^ (a.fp.getD []).length)

/-- Fraction digits that `parseFloat` reads after the integer digits. -/
def fracOf (tail : List Char) : List Char :=
  match tail with
  | '.' :: t => t.takeWhile isDig
  | _ => []

theorem parseUF_ip_tail {ip tail : List Char}
    (hip : ∀ c ∈ ip, isDig c = true) (htail : headNot isDig tail) :
    parseUF (ip ++ tail) =
      (digitsVal ip : ℚ) + (digitsVal (fracOf tail) : ℚ) / 10 ^ (fracOf tail).length := by
  have hds : (ip ++ tail).takeWhile isDig = ip := takeWhile_append_of_all hip htail
  simp only [parseUF, hds, List.drop_left, fracOf]

theorem headNot_tailOf (fp : Option (List Char)) : headNot isDig (tailOf fp) := by
  cases fp with
  | none => exact headNot_nil
  | some fs => exact headNot_cons (by decide)

theorem fracOf_tailOf {fp : Option (List Char)}
    (hfp : ∀ c ∈ fp.getD [], isDig c = true) :
    fracOf (tailOf fp) = fp.getD [] := by
  cases fp with
  | none => rfl
  | some fs =>
    simp only [tailOf, fracOf, Option.getD_some]
    exact takeWhile_all (by simpa using hfp)

theorem parseFloatQ_cons_ne {c : Char} {t : List Char} (h : c ≠ '-') :
    parseFloatQ (c :: t) = parseUF (c :: t) := by
  unfold parseFloatQ
  split
  · next heq =>
    rw [List.cons.injEq] at heq
    exact absurd heq.1 h
  · rfl

theorem parseFloatQ_render {a : DecLit} (h : a.WF) :
    parseFloatQ a.render = a.val := by
  obtain ⟨hne, hip, hfp⟩ := h
  have hUF : parseUF (a.ip ++ tailOf a.fp) =
      (digitsVal a.ip : ℚ) + (digitsVal (a.fp.getD []) : ℚ) / 10 ^ (a.fp.getD []).length := by
    rw [parseUF_ip_tail hip (headNot_tailOf a.fp), fracOf_tailOf hfp]
  cases hn : a.neg with
  | false =>
    have hr : a.render = a.ip ++ tailOf a.fp := by
      simp [DecLit.render, hn]
    cases hip' : a.ip with
    | nil => exact absurd hip' hne
    | cons d ds =>
      have hd : isDig d = true := hip d (by simp [hip'])
      have hshape : a.render = d :: (ds ++ tailOf a.fp) := by
        rw [hr, hip']
        rfl
      rw [hshape, parseFloatQ_cons_ne (dig_ne_minus hd), ← List.cons_append, ← hip', hUF]
      simp [DecLit.val, hn]
  | true =>
    have hr : a.render = '-' :: (a.ip ++ tailOf a.fp) := by
      simp [DecLit.render, hn]
    rw [hr]
    have : parseFloatQ ('-' :: (a.ip ++ tailOf a.fp)) = -(parseUF (a.ip ++ tailOf a.fp)) := rfl
    rw [this, hUF]
    simp only [DecLit.val, hn, if_pos]
    ring

/-! ## Evaluation of the decimal-pair grammar on rendered literals -/

theorem headNot_or_left {p q : Char → Bool} {l : List Char}
    (h : headNot (fun c => p c || q c) l) : headNot p l := by
  intro c hc
  have := h c hc
  exact (Bool.or_eq_false_iff.mp this).1

theorem headNot_or_right {p q : Char → Bool} {l : List Char}
    (h : headNot (fun c => p c || q c) l) : headNot q l := by
  intro c hc
  have := h c hc
  exact (Bool.or_eq_false_iff.mp this).2

theorem headNot_tailOf_append {fp : Option (List Char)} {rest : List Char}
    (hrest : headNot isDig rest) : headNot isDig (tailOf fp ++ rest) := by
  cases fp with
  | none => exact hrest
  | some fs => exact headNot_cons (by decide)

theorem numCap_eval (a : DecLit) (rest : List Char) (hWF : a.WF)
    (hstop : headNot (fun c => isDig c || c = '.') rest) :
    ∃ t, numCap (a.render ++ rest) = (a.render, rest) :: t := by
  obtain ⟨hne, hip, hfp⟩ := hWF
  have hstopD : headNot isDig rest := headNot_or_left hstop
  have hstopDot : headNot (fun c => decide (c = '.')) rest := headNot_or_right hstop
  have hfpD : ∀ c ∈ a.fp.getD [], isDig c = true := hfp
  -- step 1: the optional sign
  have hstep1 : ∃ t, mopt (mchar (fun c => c = '-')) (a.render ++ rest) =
      ((if a.neg then some '-' else none), a.ip ++ (tailOf a.fp ++ rest)) :: t := by
    cases hn : a.neg with
    | true =>
      have hshape : a.render ++ rest = '-' :: (a.ip ++ (tailOf a.fp ++ rest)) := by
        simp [DecLit.render, hn]
      rw [hshape]
      exact (if_pos rfl) ▸ mopt_eval_some (mchar_cons_pos _ (by decide))
    | false =>
      cases hip' : a.ip with
      | nil => exact absurd hip' hne
      | cons d ds =>
        have hd : isDig d = true := hip d (by simp [hip'])
        have hne' : (decide (d = '-') : Bool) = false := by
          simp only [decide_eq_false_iff_not]
          exact dig_ne_minus hd
        have hshape : a.render ++ rest = d :: (ds ++ (tailOf a.fp ++ rest)) := by
          simp [DecLit.render, hn, hip']
        refine ⟨[], ?_⟩
        rw [hshape, mopt_eval_none (mchar_cons_neg _ hne')]
        simp [hip']
  -- step 2: the integer digits
  have hstep2 : ∃ t, mdigits1 (a.ip ++ (tailOf a.fp ++ rest)) =
      (a.ip, tailOf a.fp ++ rest) :: t :=
    mdigits1_eval hip (headNot_tailOf_append hstopD) hne
  -- step 3: the optional dot
  have hstep3 : ∃ t, mopt (mchar (fun c => c = '.')) (tailOf a.fp ++ rest) =
      ((if a.fp.isSome then some '.' else none), a.fp.getD [] ++ rest) :: t := by
    cases hf : a.fp with
    | some fs =>
      simp only [tailOf, Option.isSome_some, if_pos, Option.getD_some, List.cons_append]
      exact mopt_eval_some (mchar_cons_pos _ (by decide))
    | none =>
      simp only [tailOf, Option.isSome_none, Option.getD_none, List.nil_append]
      exact ⟨[], mopt_eval_none (mchar_empty_of_headNot hstopDot)⟩
  obtain ⟨t1, h1⟩ := hstep1
  obtain ⟨t2, h2⟩ := hstep2
  obtain ⟨t3, h3⟩ := hstep3
  obtain ⟨t4, h4⟩ :=
    mdigits0_eval hfpD hstopD
  obtain ⟨t45, h45⟩ := mbind_eval
    (f := fun fs => mpure (optList (if a.neg then some '-' else none) ++ a.ip ++
      optList (if a.fp.isSome then some '.' else none) ++ fs)) h4 rfl
  obtain ⟨t345, h345⟩ := mbind_eval
    (f := fun dt => mbind mdigits0 (fun fs =>
      mpure (optList (if a.neg then some '-' else none) ++ a.ip ++ optList dt ++ fs)))
    h3 h45
  obtain ⟨t2345, h2345⟩ := mbind_eval
    (f := fun ds => mbind (mopt (mchar (fun c => c = '.'))) (fun dt =>
      mbind mdigits0 (fun fs =>
        mpure (optList (if a.neg then some '-' else none) ++ ds ++ optList dt ++ fs))))
    h2 h345
  obtain ⟨t0, h0⟩ := mbind_eval
    (f := fun sg => mbind mdigits1 (fun ds =>
      mbind (mopt (mchar (fun c => c = '.'))) (fun dt =>
        mbind mdigits0 (fun fs => mpure (optList sg ++ ds ++ optList dt ++ fs)))))
    h1 h2345
  have hcap : optList (if a.neg then some '-' else none) ++ a.ip ++
      optList (if a.fp.isSome then some '.' else none) ++ a.fp.getD [] = a.render := by
    cases hn : a.neg <;> cases hf : a.fp <;>
      simp [optList, DecLit.render, tailOf, hn, hf]
  refine ⟨t0, ?_⟩
  rw [hcap] at h0
  exact h0

theorem headNot_ws_render {b : DecLit} (hb : b.WF) : headNot isWs b.render := by
  obtain ⟨hne, hip, _⟩ := hb
  cases hn : b.neg with
  | true =>
    have hshape : b.render = '-' :: (b.ip ++ tailOf b.fp) := by
      simp [DecLit.render, hn]
    rw [hshape]
    exact headNot_cons (by decide)
  | false =>
    cases hip' : b.ip with
    | nil => exact absurd hip' hne
    | cons d ds =>
      have hshape : b.render = d :: (ds ++ tailOf b.fp) := by
        simp [DecLit.render, hn, hip']
      rw [hshape]
      exact headNot_cons (dig_not_ws (hip d (by simp [hip'])))

/-- the string `lat "," spaces lng` built from two decimal literals, with
`k` spaces after the comma. -/
def renderDecPair (a b : DecLit) (k : ℕ) : List Char :=
  a.render ++ (',' :: (List.replicate k ' ' ++ b.render))

theorem decPairM_eval (a b : DecLit) (k : ℕ) (ha : a.WF) (hb : b.WF) :
    ∃ t, decPairM (renderDecPair a b k) = ((a.render, b.render), []) :: t := by
  have hstepA : ∃ t, numCap (renderDecPair a b k) =
      (a.render, ',' :: (List.replicate k ' ' ++ b.render)) :: t :=
    numCap_eval a _ ha (headNot_cons (by decide))
  have hstepB : mchar (fun c => c = ',') (',' :: (List.replicate k ' ' ++ b.render)) =
      [(',', List.replicate k ' ' ++ b.render)] :=
    mchar_cons_pos _ (by decide)
  have hstepC : ∃ t, mspaces (List.replicate k ' ' ++ b.render) =
      (List.replicate k ' ', b.render) :: t :=
    mspaces_eval (fun c hc => by rw [List.eq_of_mem_replicate hc]; decide)
      (headNot_ws_render hb)
  have hstepD : ∃ t, numCap b.render = (b.render, []) :: t := by
    have := numCap_eval b [] hb headNot_nil
    rwa [List.append_nil] at this
  obtain ⟨tA, hA⟩ := hstepA
  obtain ⟨tC, hC⟩ := hstepC
  obtain ⟨tD, hD⟩ := hstepD
  obtain ⟨tDE, hDE⟩ := mbind_eval (f := fun c2 => mpure (a.render, c2)) hD rfl
  obtain ⟨tCDE, hCDE⟩ := mbind_eval
    (f := fun _ => mbind numCap (fun c2 => mpure (a.render, c2))) hC hDE
  obtain ⟨tB, hB⟩ := mbind_eval
    (f := fun _ => mbind mspaces (fun _ => mbind numCap (fun c2 => mpure (a.render, c2))))
    hstepB hCDE
  obtain ⟨t0, h0⟩ := mbind_eval
    (f := fun c1 => mbind (mchar (fun c => c = ',')) (fun _ =>
      mbind mspaces (fun _ => mbind numCap (fun c2 => mpure (c1, c2)))))
    hA hB
  exact ⟨t0, h0⟩

theorem parseCoordinatesL_decPair {a b : DecLit} (k : ℕ) (ha : a.WF) (hb : b.WF) :
    parseCoordinatesL (renderDecPair a b k) = some ⟨some a.val, some b.val⟩ := by
  obtain ⟨t, ht⟩ := decPairM_eval a b k ha hb
  have hm : mrun decPairM (renderDecPair a b k) = some (a.render, b.render) := mrun_eval ht
  simp only [parseCoordinatesL, hm]
  rw [parseFloatQ_render ha, parseFloatQ_render hb]

/-! ## Soundness of the matchers: consumed characters -/

/-- Every result of the parser leaves a suffix of the input. -/
def SuffixSound {α : Type} (P : M α) : Prop :=
  ∀ cs x, x ∈ P cs → x.2 <:+ cs

theorem mem_mbind {α β : Type} {m : M α} {f : α → M β} {cs : List Char}
    {x : β × List Char} :
    x ∈ mbind m f cs ↔ ∃ y ∈ m cs, x ∈ f y.1 y.2 := by
  simp [mbind, List.mem_flatMap]

theorem mem_mchar {p : Char → Bool} {cs : List Char} {x : Char × List Char}
    (h : x ∈ mchar p cs) : p x.1 = true ∧ cs = x.1 :: x.2 := by
  cases cs with
  | nil => simp [mchar] at h
  | cons c rest =>
    by_cases hp : p c = true
    · rw [mchar_cons_pos rest hp] at h
      simp at h
      rw [h]
      exact ⟨hp, rfl⟩
    · rw [mchar_cons_neg rest (by simpa using hp)] at h
      simp at h

theorem suffixSound_mpure {α : Type} (a : α) : SuffixSound (mpure a) := by
  intro cs x h
  simp [mpure] at h
  rw [h]

theorem suffixSound_mchar (p : Char → Bool) : SuffixSound (mchar p) := by
  intro cs x h
  obtain ⟨-, hcs⟩ := mem_mchar h
  rw [hcs]
  exact List.suffix_cons x.1 x.2

theorem run_drop_suffix {q : Char → Bool} (cs : List Char) (n : ℕ) :
    ((cs.takeWhile q).drop n ++ cs.drop (cs.takeWhile q).length) <:+ cs := by
  refine ⟨(cs.takeWhile q).take n, ?_⟩
  rw [← List.append_assoc, List.take_append_drop, takeWhile_append_drop]

theorem suffixSound_mdigits1 : SuffixSound mdigits1 := by
  intro cs x h
  simp only [mdigits1, List.mem_map] at h
  obtain ⟨n, -, hx⟩ := h
  rw [← hx]
  exact run_drop_suffix cs n

theorem suffixSound_mdigits0 : SuffixSound mdigits0 := by
  intro cs x h
  simp only [mdigits0, List.mem_map] at h
  obtain ⟨n, -, hx⟩ := h
  rw [← hx]
  exact run_drop_suffix cs n

theorem suffixSound_mspaces : SuffixSound mspaces := by
  intro cs x h
  simp only [mspaces, List.mem_map] at h
  obtain ⟨n, -, hx⟩ := h
  rw [← hx]
  exact run_drop_suffix cs n

theorem suffixSound_mopt {α : Type} {m : M α} (hm : SuffixSound m) :
    SuffixSound (mopt m) := by
  intro cs x h
  simp only [mopt, List.mem_append, List.mem_map, List.mem_singleton] at h
  rcases h with ⟨y, hy, hx⟩ | hx
  · rw [← hx]
    exact hm cs y hy
  · rw [hx]

theorem suffixSound_mbind {α β : Type} {m : M α} {f : α → M β}
    (hm : SuffixSound m) (hf : ∀ a, SuffixSound (f a)) :
    SuffixSound (mbind m f) := by
  intro cs x h
  obtain ⟨y, hy, hx⟩ := mem_mbind.mp h
  exact (hf y.1 y.2 x hx).trans (hm cs y hy)

/-! ## Charset soundness: a match consumes only characters of the grammar -/

/-- Every result of the parser consumed only characters satisfying `S`. -/
def ConsumesOnly {α : Type} (P : M α) (S : Char → Bool) : Prop :=
  ∀ cs x, x ∈ P cs → ∃ pre, cs = pre ++ x.2 ∧ ∀ c ∈ pre, S c = true

theorem co_mpure {α : Type} {S : Char → Bool} (a : α) : ConsumesOnly (mpure a) S := by
  intro cs x h
  simp [mpure] at h
  exact ⟨[], by simp [h]⟩

theorem co_mchar {p : Char → Bool} {S : Char → Bool}
    (hp : ∀ c, p c = true → S c = true) : ConsumesOnly (mchar p) S := by
  intro cs x h
  obtain ⟨hpx, hcs⟩ := mem_mchar h
  exact ⟨[x.1], by simpa [hcs] using hp x.1 hpx⟩

theorem run_split_eq {q : Char → Bool} (cs : List Char) (n : ℕ) :
    cs = (cs.takeWhile q).take n ++
      ((cs.takeWhile q).drop n ++ cs.drop (cs.takeWhile q).length) := by
  rw [← List.append_assoc, List.take_append_drop, takeWhile_append_drop]

theorem co_run_lemma {q S : Char → Bool} (hq : ∀ c, q c = true → S c = true)
    (cs : List Char) (n : ℕ) :
    ∃ pre, cs = pre ++ ((cs.takeWhile q).drop n ++ cs.drop (cs.takeWhile q).length) ∧
      ∀ c ∈ pre, S c = true := by
  refine ⟨(cs.takeWhile q).take n, run_split_eq cs n, ?_⟩
  intro c hc
  exact hq c (List.mem_takeWhile_imp (List.mem_of_mem_take hc))

theorem co_mdigits1 {S : Char → Bool} (h : ∀ c, isDig c = true → S c = true) :
    ConsumesOnly mdigits1 S := by
  intro cs x hx
  simp only [mdigits1, List.mem_map] at hx
  obtain ⟨n, -, hn⟩ := hx
  rw [← hn]
  exact co_run_lemma h cs n

theorem co_mdigits0 {S : Char → Bool} (h : ∀ c, isDig c = true → S c = true) :
    ConsumesOnly mdigits0 S := by
  intro cs x hx
  simp only [mdigits0, List.mem_map] at hx
  obtain ⟨n, -, hn⟩ := hx
  rw [← hn]
  exact co_run_lemma h cs n

theorem co_mspaces {S : Char → Bool} (h : ∀ c, isWs c = true → S c = true) :
    ConsumesOnly mspaces S := by
  intro cs x hx
  simp only [mspaces, List.mem_map] at hx
  obtain ⟨n, -, hn⟩ := hx
  rw [← hn]
  exact co_run_lemma h cs n

theorem co_mopt {α : Type} {m : M α} {S : Char → Bool} (hm : ConsumesOnly m S) :
    ConsumesOnly (mopt m) S := by
  intro cs x h
  simp only [mopt, List.mem_append, List.mem_map, List.mem_singleton] at h
  rcases h with ⟨y, hy, hx⟩ | hx
  · obtain ⟨pre, hpre, hS⟩ := hm cs y hy
    exact ⟨pre, by rw [← hx]; exact hpre, hS⟩
  · exact ⟨[], by simp [hx]⟩

theorem co_mbind {α β : Type} {m : M α} {f : α → M β} {S : Char → Bool}
    (hm : ConsumesOnly m S) (hf : ∀ a, ConsumesOnly (f a) S) :
    ConsumesOnly (mbind m f) S := by
  intro cs x h
  obtain ⟨y, hy, hx⟩ := mem_mbind.mp h
  obtain ⟨pre1, hpre1, hS1⟩ := hm cs y hy
  obtain ⟨pre2, hpre2, hS2⟩ := hf y.1 y.2 x hx
  refine ⟨pre1 ++ pre2, ?_, ?_⟩
  · rw [hpre1, hpre2, List.append_assoc]
  · intro c hc
    rcases List.mem_append.mp hc with h1 | h2
    · exact hS1 c h1
    · exact hS2 c h2

theorem mrun_eq_some_mem {α : Type} {P : M α} {cs : List Char} {x : α}
    (h : mrun P cs = some x) : ∃ y ∈ P cs, y.1 = x ∧ y.2 = [] := by
  simp only [mrun, Option.map_eq_some'] at h
  obtain ⟨y, hy, hx⟩ := h
  refine ⟨y, List.mem_of_find?_eq_some hy, hx, ?_⟩
  have := List.find?_some hy
  simpa [List.isEmpty_iff] using this

theorem mrun_consumes {α : Type} {P : M α} {S : Char → Bool}
    (hP : ConsumesOnly P S) {cs : List Char} {x : α}
    (h : mrun P cs = some x) : ∀ c ∈ cs, S c = true := by
  obtain ⟨y, hy, -, hnil⟩ := mrun_eq_some_mem h
  obtain ⟨pre, hpre, hS⟩ := hP cs y hy
  rw [hnil, List.append_nil] at hpre
  rw [hpre]
  exact hS

/-- Characters the decimal-pair grammar can consume. -/
def decOK (c : Char) : Bool := isDig c || c = '-' || c = '.' || c = ',' || isWs c

theorem decOK_dig : ∀ c : Char, isDig c = true → decOK c = true := by
  intro c h
  simp [decOK, h]

theorem decOK_ws : ∀ c : Char, isWs c = true → decOK c = true := by
  intro c h
  simp [decOK, h]

theorem co_numCap : ConsumesOnly numCap decOK :=
  co_mbind (co_mopt (co_mchar (by intro c h; simp only [decide_eq_true_eq] at h; simp [decOK, h])))
    (fun _ => co_mbind (co_mdigits1 decOK_dig)
      (fun _ => co_mbind (co_mopt (co_mchar (by intro c h; simp only [decide_eq_true_eq] at h; simp [decOK, h])))
        (fun _ => co_mbind (co_mdigits0 decOK_dig)
          (fun _ => co_mpure _))))

theorem co_decPairM : ConsumesOnly decPairM decOK :=
  co_mbind co_numCap
    (fun _ => co_mbind (co_mchar (by intro c h; simp only [decide_eq_true_eq] at h; simp [decOK, h]))
      (fun _ => co_mbind (co_mspaces decOK_ws)
        (fun _ => co_mbind co_numCap
          (fun _ => co_mpure _))))

theorem decPair_fail_of_degree {cs : List Char} (h : '°' ∈ cs) :
    mrun decPairM cs = none := by
  cases hm : mrun decPairM cs with
  | none => rfl
  | some x =>
    have := mrun_consumes co_decPairM hm '°' h
    exact absurd this (by decide)

/-! ## Hemisphere soundness: a DMS-pair match needs its hemisphere letters -/

/-- Every result of the parser was produced from an input containing a
character satisfying `hemi`. -/
def HemiIn {α : Type} (P : M α) (hemi : Char → Bool) : Prop :=
  ∀ cs x, x ∈ P cs → ∃ c ∈ cs, hemi c = true

theorem hemiIn_mbind_left {α β : Type} {m : M α} {f : α → M β} {hemi : Char → Bool}
    (hm : HemiIn m hemi) : HemiIn (mbind m f) hemi := by
  intro cs x h
  obtain ⟨y, hy, -⟩ := mem_mbind.mp h
  exact hm cs y hy

theorem hemiIn_mbind_right {α β : Type} {m : M α} {f : α → M β} {hemi : Char → Bool}
    (hm : SuffixSound m) (hf : ∀ a, HemiIn (f a) hemi) : HemiIn (mbind m f) hemi := by
  intro cs x h
  obtain ⟨y, hy, hx⟩ := mem_mbind.mp h
  obtain ⟨c, hc, hhemi⟩ := hf y.1 y.2 x hx
  exact ⟨c, (hm cs y hy).mem hc, hhemi⟩

theorem hemiIn_mchar_first {β : Type} {f : Char → M β} {hemi : Char → Bool} :
    HemiIn (mbind (mchar hemi) f) hemi := by
  intro cs x h
  obtain ⟨y, hy, -⟩ := mem_mbind.mp h
  obtain ⟨hp, hcs⟩ := mem_mchar hy
  exact ⟨y.1, by rw [hcs]; simp, hp⟩

theorem suffixSound_fracCap : SuffixSound fracCap :=
  suffixSound_mbind (suffixSound_mchar _)
    (fun _ => suffixSound_mbind suffixSound_mdigits1 (fun _ => suffixSound_mpure _))

theorem suffixSound_dmsTok (hemi : Char → Bool) : SuffixSound (dmsTok hemi) :=
  suffixSound_mbind (suffixSound_mopt (suffixSound_mchar _)) fun _ =>
  suffixSound_mbind suffixSound_mdigits1 fun _ =>
  suffixSound_mbind (suffixSound_mchar _) fun _ =>
  suffixSound_mbind suffixSound_mspaces fun _ =>
  suffixSound_mbind suffixSound_mdigits1 fun _ =>
  suffixSound_mbind (suffixSound_mopt (suffixSound_mchar _)) fun _ =>
  suffixSound_mbind suffixSound_mspaces fun _ =>
  suffixSound_mbind suffixSound_mdigits1 fun _ =>
  suffixSound_mbind (suffixSound_mopt suffixSound_fracCap) fun _ =>
  suffixSound_mbind (suffixSound_mopt (suffixSound_mchar _)) fun _ =>
  suffixSound_mbind suffixSound_mspaces fun _ =>
  suffixSound_mbind (suffixSound_mchar _) fun _ =>
  suffixSound_mpure _

theorem hemiIn_dmsTok (hemi : Char → Bool) : HemiIn (dmsTok hemi) hemi :=
  hemiIn_mbind_right (suffixSound_mopt (suffixSound_mchar _)) fun _ =>
  hemiIn_mbind_right suffixSound_mdigits1 fun _ =>
  hemiIn_mbind_right (suffixSound_mchar _) fun _ =>
  hemiIn_mbind_right suffixSound_mspaces fun _ =>
  hemiIn_mbind_right suffixSound_mdigits1 fun _ =>
  hemiIn_mbind_right (suffixSound_mopt (suffixSound_mchar _)) fun _ =>
  hemiIn_mbind_right suffixSound_mspaces fun _ =>
  hemiIn_mbind_right suffixSound_mdigits1 fun _ =>
  hemiIn_mbind_right (suffixSound_mopt suffixSound_fracCap) fun _ =>
  hemiIn_mbind_right (suffixSound_mopt (suffixSound_mchar _)) fun _ =>
  hemiIn_mbind_right suffixSound_mspaces fun _ =>
  hemiIn_mchar_first

theorem hemiIn_dmsPair_NS : HemiIn dmsPairM (fun c => c = 'N' || c = 'S') :=
  hemiIn_mbind_left (hemiIn_dmsTok _)

theorem hemiIn_dmsPair_EW : HemiIn dmsPairM (fun c => c = 'E' || c = 'W') :=
  hemiIn_mbind_right (suffixSound_dmsTok _) fun _ =>
  hemiIn_mbind_right suffixSound_mspaces fun _ =>
  hemiIn_mbind_right (suffixSound_mopt (suffixSound_mchar _)) fun _ =>
  hemiIn_mbind_right suffixSound_mspaces fun _ =>
  hemiIn_mbind_left (hemiIn_dmsTok _)

theorem dmsPair_fail_of_no_NS {cs : List Char} (hN : 'N' ∉ cs) (hS : 'S' ∉ cs) :
    mrun dmsPairM cs = none := by
  cases hm : mrun dmsPairM cs with
  | none => rfl
  | some x =>
    obtain ⟨y, hy, -, -⟩ := mrun_eq_some_mem hm
    obtain ⟨c, hc, hhemi⟩ := hemiIn_dmsPair_NS cs y hy
    simp only [Bool.or_eq_true, decide_eq_true_eq] at hhemi
    rcases hhemi with h | h
    · exact absurd (h ▸ hc) hN
    · exact absurd (h ▸ hc) hS

theorem dmsPair_fail_of_no_EW {cs : List Char} (hE : 'E' ∉ cs) (hW : 'W' ∉ cs) :
    mrun dmsPairM cs = none := by
  cases hm : mrun dmsPairM cs with
  | none => rfl
  | some x =>
    obtain ⟨y, hy, -, -⟩ := mrun_eq_some_mem hm
    obtain ⟨c, hc, hhemi⟩ := hemiIn_dmsPair_EW cs y hy
    simp only [Bool.or_eq_true, decide_eq_true_eq] at hhemi
    rcases hhemi with h | h
    · exact absurd (h ▸ hc) hE
    · exact absurd (h ▸ hc) hW

theorem parseCoordinatesL_none {cs : List Char}
    (h1 : mrun decPairM cs = none) (h2 : mrun dmsPairM cs = none) :
    parseCoordinatesL cs = none := by
  simp [parseCoordinatesL, h1, h2]

/-! ## Distance measurement: loop versus sum of consecutive distances -/

/-- the spec-side form: sum of the point-to-point distances of consecutive
points, in point order. -/
noncomputable def consecSum (l : List LatLng) : ℝ :=
  (List.zipWith distanceTo l l.tail).sum

theorem foldl_add_sum (g : ℕ → ℝ) (l : List ℕ) (a : ℝ) :
    l.foldl (fun x i => x + g i) a = a + (l.map g).sum := by
  induction l generalizing a with
  | nil => simp
  | cons i t ih =>
    simp only [List.foldl_cons, List.map_cons, List.sum_cons, ih (a + g i)]
    ring

theorem range'_shift (s n : ℕ) :
    List.range' (s + 1) n = (List.range' s n).map (· + 1) := by
  induction n generalizing s with
  | zero => rfl
  | succ k ih =>
    rw [List.range'_succ, List.range'_succ, List.map_cons, ih (s + 1)]

theorem consec_aux (l : List LatLng) :
    ((List.range' 1 (l.length - 1)).map
      (fun i => distanceTo (l.getD (i - 1) latLng0) (l.getD i latLng0))).sum
    = consecSum l := by
  induction l with
  | nil => simp [consecSum]
  | cons p t ih =>
    cases t with
    | nil => simp [consecSum]
    | cons q t2 =>
      have hlen : (p :: q :: t2).length - 1 = t2.length + 1 := by simp
      rw [hlen, List.range'_succ, List.map_cons, List.sum_cons]
      have hshift : List.range' 2 t2.length = (List.range' 1 t2.length).map (· + 1) :=
        range'_shift 1 t2.length
      have hmap : (List.range' 2 t2.length).map
          (fun i => distanceTo ((p :: q :: t2).getD (i - 1) latLng0)
            ((p :: q :: t2).getD i latLng0)) =
          (List.range' 1 t2.length).map
          (fun i => distanceTo ((q :: t2).getD (i - 1) latLng0)
            ((q :: t2).getD i latLng0)) := by
        rw [hshift, List.map_map]
        refine List.map_congr_left ?_
        intro i hi
        have h1 : 1 ≤ i := (List.mem_range'_1.mp hi).1
        obtain ⟨j, rfl⟩ := Nat.exists_eq_add_of_le h1
        simp only [Function.comp_apply]
        have e1 : 1 + j + 1 - 1 = 1 + j := rfl
        have e2 : 1 + j - 1 = j := by omega
        have e3 : 1 + j = j + 1 := by omega
        rw [e1, e2, e3]
        simp [List.getD_cons_succ]
      have hlen2 : (q :: t2).length - 1 = t2.length := by simp
      rw [hlen2] at ih
      rw [hmap, ih]
      simp [consecSum, List.zipWith_cons_cons]

theorem calculateDistance_eq_consecSum (l : List LatLng) :
    calculateDistance l = consecSum l := by
  rw [calculateDistance, foldl_add_sum
    (fun i => distanceTo (l.getD (i - 1) latLng0) (l.getD i latLng0))
    (List.range' 1 (l.length - 1)) 0, zero_add]
  exact consec_aux l

/-! ## Haversine distance along a meridian -/

theorem atan2_sqrt_sin {t : ℝ} (h1 : 0 ≤ t) (h2 : t ≤ Real.pi / 2) :
    atan2 (Real.sqrt (Real.sin t ^ 2)) (Real.sqrt (1 - Real.sin t ^ 2)) = t := by
  have hpi := Real.pi_pos
  have hsinnn : 0 ≤ Real.sin t :=
    Real.sin_nonneg_of_nonneg_of_le_pi h1 (by linarith)
  have hsq : Real.sqrt (Real.sin t ^ 2) = Real.sin t := by
    rw [Real.sqrt_sq_eq_abs, abs_of_nonneg hsinnn]
  have hcossq : 1 - Real.sin t ^ 2 = Real.cos t ^ 2 := (Real.cos_sq' t).symm
  have hcosnn : 0 ≤ Real.cos t :=
    Real.cos_nonneg_of_mem_Icc ⟨by linarith, h2⟩
  have hcos : Real.sqrt (1 - Real.sin t ^ 2) = Real.cos t := by
    rw [hcossq, Real.sqrt_sq_eq_abs, abs_of_nonneg hcosnn]
  rw [hsq, hcos]
  rcases lt_or_eq_of_le h2 with hlt | heq
  · have hcospos : 0 < Real.cos t :=
      Real.cos_pos_of_mem_Ioo ⟨by linarith, hlt⟩
    rw [atan2, if_pos hcospos, ← Real.tan_eq_sin_div_cos]
    exact Real.arctan_tan (by linarith) hlt
  · subst heq
    rw [Real.sin_pi_div_two, Real.cos_pi_div_two]
    norm_num [atan2]

theorem sin_sq_abs (u : ℝ) : Real.sin |u| ^ 2 = Real.sin u ^ 2 := by
  rcases abs_cases u with ⟨h, -⟩ | ⟨h, -⟩
  · rw [h]
  · rw [h, Real.sin_neg, neg_sq]

theorem distanceTo_meridian {a b l : ℝ} (h : |b - a| ≤ 180) :
    distanceTo ⟨a, l⟩ ⟨b, l⟩ = 6371000 * (|b - a| * (Real.pi / 180)) := by
  have hpi := Real.pi_pos
  set u := (b - a) * (Real.pi / 180) / 2 with hu
  have habs : |u| = |b - a| * (Real.pi / 180) / 2 := by
    rw [hu, abs_div, abs_mul, abs_of_nonneg (by positivity : (0:ℝ) ≤ Real.pi / 180),
      abs_of_nonneg (by norm_num : (0:ℝ) ≤ 2)]
  have habs_le : |u| ≤ Real.pi / 2 := by
    rw [habs]
    have : |b - a| * (Real.pi / 180) ≤ 180 * (Real.pi / 180) := by
      have hp : (0:ℝ) ≤ Real.pi / 180 := by positivity
      exact mul_le_mul_of_nonneg_right h hp
    have h180 : (180:ℝ) * (Real.pi / 180) = Real.pi := by ring
    linarith
  have hdef : distanceTo ⟨a, l⟩ ⟨b, l⟩ =
      6371000 * (2 * atan2
        (Real.sqrt (Real.sin u * Real.sin u +
          Real.cos (a * (Real.pi / 180)) * Real.cos (b * (Real.pi / 180)) *
          (Real.sin ((l - l) * (Real.pi / 180) / 2) * Real.sin ((l - l) * (Real.pi / 180) / 2))))
        (Real.sqrt (1 - (Real.sin u * Real.sin u +
          Real.cos (a * (Real.pi / 180)) * Real.cos (b * (Real.pi / 180)) *
          (Real.sin ((l - l) * (Real.pi / 180) / 2) *
            Real.sin ((l - l) * (Real.pi / 180) / 2)))))) := rfl
  have hz : Real.sin ((l - l) * (Real.pi / 180) / 2) = 0 := by
    simp
  rw [hdef, hz]
  have harg : Real.sin u * Real.sin u +
      Real.cos (a * (Real.pi / 180)) * Real.cos (b * (Real.pi / 180)) * (0 * 0) =
      Real.sin |u| ^ 2 := by
    rw [sin_sq_abs]
    ring
  rw [harg, atan2_sqrt_sin (abs_nonneg u) habs_le, habs]
  ring


/-! ## Claim theorems -/

/-- C1, counterexample: the decimal-pair regex allows whitespace only
after the comma, not before it.  The in-range pair `lat = 1`, `lng = 2`
written `"1 , 2"` (whitespace around the comma) is not recognized:
`parseCoordinates` returns `null`, contradicting the claim that every
in-range decimal pair with whitespace tolerated around the comma is
recognized and returned exactly. -/
theorem c1_counterexample_space_before_comma : parseCoordinates "1 , 2" = none := by
  decide

/-- C1 (amended: whitespace is tolerated after the comma only): for every
decimal-pair string `lat "," spaces lng` built from two well-formed
decimal literals with `lat ∈ [-90, 90]` and `lng ∈ [-180, 180]`,
`parseCoordinates` recognizes the string and returns exactly the
coordinate `{lat, lng}`, first number latitude, second longitude. -/
theorem c1_decimal_pair_exact (a b : DecLit) (k : ℕ) (ha : a.WF) (hb : b.WF)
    (hlat1 : -90 ≤ a.val) (hlat2 : a.val ≤ 90)
    (hlng1 : -180 ≤ b.val) (hlng2 : b.val ≤ 180) :
    parseCoordinatesL (renderDecPair a b k) = some ⟨some a.val, some b.val⟩ :=
  parseCoordinatesL_decPair k ha hb

/-- C1 witness: the concrete pair `"12.5, -3"` parses to `(12.5, -3)`. -/
theorem c1_decimal_pair_exact_witness :
    (DecLit.mk false ['1', '2'] (some ['5'])).WF ∧
    (DecLit.mk true ['3'] none).WF ∧
    -90 ≤ (DecLit.mk false ['1', '2'] (some ['5'])).val ∧
    (DecLit.mk false ['1', '2'] (some ['5'])).val ≤ 90 ∧
    -180 ≤ (DecLit.mk true ['3'] none).val ∧
    (DecLit.mk true ['3'] none).val ≤ 180 ∧
    parseCoordinatesL
      (renderDecPair (DecLit.mk false ['1', '2'] (some ['5'])) (DecLit.mk true ['3'] none) 1) =
      some ⟨some (DecLit.mk false ['1', '2'] (some ['5'])).val,
            some (DecLit.mk true ['3'] none).val⟩ := by
  have h12 : digitsVal ['1', '2'] = 12 := rfl
  have h5 : digitsVal ['5'] = 5 := rfl
  have h3 : digitsVal ['3'] = 3 := rfl
  have hva : (DecLit.mk false ['1', '2'] (some ['5'])).val = 25 / 2 := by
    norm_num [DecLit.val, h12, h5]
  have h0 : digitsVal [] = 0 := rfl
  have hvb : (DecLit.mk true ['3'] none).val = -3 := by
    norm_num [DecLit.val, h3, h0]
  have ha : (DecLit.mk false ['1', '2'] (some ['5'])).WF := ⟨by simp, by decide, by decide⟩
  have hb : (DecLit.mk true ['3'] none).WF := ⟨by simp, by decide, by decide⟩
  refine ⟨ha, hb, by rw [hva]; norm_num, by rw [hva]; norm_num, by rw [hvb]; norm_num,
    by rw [hvb]; norm_num, ?_⟩
  exact c1_decimal_pair_exact _ _ 1 ha hb (by rw [hva]; norm_num) (by rw [hva]; norm_num)
    (by rw [hvb]; norm_num) (by rw [hvb]; norm_num)

/-- Spec-side DMS value: `degrees + minutes/60 + seconds/3600`, sign
negated exactly when the (upper-cased) hemisphere letter is S or W;
missing minutes or seconds contribute 0. -/
def dmsValue (d : List Char) (mi se : Option (List Char)) (hl : Char) : ℚ :=
  (if hl.toUpper = 'S' ∨ hl.toUpper = 'W' then -1 else 1) *
    ((digitsVal d : ℚ) + ((mi.map (fun m => (digitsVal m : ℚ))).getD 0) / 60 +
      ((se.map parseFloatQ).getD 0) / 3600)

/-- C2: for every DMS token accepted by `parseDMS` (the token regex finds
degrees, optional minutes, optional seconds and a hemisphere letter), the
returned decimal equals `degrees + minutes/60 + seconds/3600`, negated
exactly when the hemisphere letter is S or W, with missing minutes or
seconds contributing 0. -/
theorem c2_dms_conversion (s : String) (v : ℚ) (h : parseDMS s = some v) :
    ∃ d mi se hl, msearch dmsPartsM s.data = some (d, mi, se, hl) ∧
      v = dmsValue d mi se hl := by
  rw [parseDMS] at h
  rcases hm : msearch dmsPartsM s.data with _ | ⟨d, mi, se, hl⟩
  · rw [parseDMSL, hm] at h
    exact absurd h (by simp)
  · simp only [parseDMSL, hm] at h
    refine ⟨d, mi, se, hl, rfl, ?_⟩
    have hv := Option.some.inj h
    rw [← hv]
    by_cases hc : hl.toUpper = 'S' ∨ hl.toUpper = 'W'
    · have hb : (hl.toUpper = 'S' || hl.toUpper = 'W') = true := by
        rcases hc with h1 | h1 <;> simp [h1]
      rw [if_pos hb, dmsValue, if_pos hc]
      cases mi <;> cases se <;> simp [Option.map, Option.getD] <;> ring
    · have hb : ¬((hl.toUpper = 'S' || hl.toUpper = 'W') = true) := by
        push_neg at hc
        simp [hc.1, hc.2]
      rw [if_neg hb, dmsValue, if_neg hc]
      cases mi <;> cases se <;> simp [Option.map, Option.getD] <;> ring

/-- Reading an all-digit capture with `parseFloat` gives its integer value. -/
theorem parseFloatQ_digits {ds : List Char} (h : ∀ c ∈ ds, isDig c = true)
    (hne : ds ≠ []) : parseFloatQ ds = digitsVal ds := by
  have hfq := parseFloatQ_render (a := DecLit.mk false ds none) ⟨hne, h, by simp⟩
  have hr : (DecLit.mk false ds none).render = ds := by
    simp [DecLit.render, tailOf]
  rw [hr] at hfq
  rw [hfq]
  have h0 : digitsVal [] = 0 := rfl
  simp [DecLit.val, h0]

/-- C2 witness: `parseDMS "30°21'20\"N"` is accepted and equals
`30 + 21/60 + 20/3600`. -/
theorem c2_dms_conversion_witness :
    parseDMS "30°21'20\"N" = some (30 + 21 / 60 + 20 / 3600 : ℚ) ∧
    ∃ d mi se hl, msearch dmsPartsM "30°21'20\"N".data = some (d, mi, se, hl) ∧
      (30 + 21 / 60 + 20 / 3600 : ℚ) = dmsValue d mi se hl := by
  have hm : msearch dmsPartsM "30°21'20\"N".data =
      some (['3', '0'], some ['2', '1'], some (['2', '0'] : List Char), 'N') := by
    decide
  have e1 : digitsVal ['3', '0'] = 30 := rfl
  have e2 : digitsVal ['2', '1'] = 21 := rfl
  have e3 : parseFloatQ ['2', '0'] = 20 := by
    rw [parseFloatQ_digits (by decide) (by simp)]
    rfl
  have hp : parseDMS "30°21'20\"N" = some (30 + 21 / 60 + 20 / 3600 : ℚ) := by
    simp only [parseDMS, parseDMSL, hm]
    rw [e1, e2, e3]
    norm_num
    exact ⟨by decide, by decide⟩
  exact ⟨hp, c2_dms_conversion _ _ hp⟩

/-- C3: (1) for every string matched by neither the decimal-pair grammar
nor the DMS-pair grammar, `parseCoordinates` returns `null`; (2) in
particular, every DMS-like string (one containing a degree sign) in which
a token lacks its trailing hemisphere letter — so that the string contains
no `N`/`S`, or no `E`/`W` — returns `null` rather than defaulting a
hemisphere. -/
theorem c3_not_recognized :
    (∀ s : String, mrun decPairM s.data = none → mrun dmsPairM s.data = none →
      parseCoordinates s = none) ∧
    (∀ s : String, '°' ∈ s.data →
      (('N' ∉ s.data ∧ 'S' ∉ s.data) ∨ ('E' ∉ s.data ∧ 'W' ∉ s.data)) →
      parseCoordinates s = none) := by
  constructor
  · intro s h1 h2
    exact parseCoordinatesL_none h1 h2
  · intro s hdeg hnohemi
    refine parseCoordinatesL_none (decPair_fail_of_degree hdeg) ?_
    rcases hnohemi with ⟨hN, hS⟩ | ⟨hE, hW⟩
    · exact dmsPair_fail_of_no_NS hN hS
    · exact dmsPair_fail_of_no_EW hE hW

/-- C3 witness: `"not a coordinate"` matches neither grammar and returns
`null`; the DMS-like `"30°21'20\" 120°1'2\"E"`, whose latitude token lacks
its hemisphere letter, returns `null`. -/
theorem c3_not_recognized_witness :
    mrun decPairM "not a coordinate".data = none ∧
    mrun dmsPairM "not a coordinate".data = none ∧
    parseCoordinates "not a coordinate" = none ∧
    '°' ∈ "30°21'20\" 120°1'2\"E".data ∧
    ('N' ∉ "30°21'20\" 120°1'2\"E".data ∧ 'S' ∉ "30°21'20\" 120°1'2\"E".data) ∧
    parseCoordinates "30°21'20\" 120°1'2\"E" = none := by
  refine ⟨by decide, by decide, ?_, by decide, ⟨by decide, by decide⟩, ?_⟩
  · exact c3_not_recognized.1 _ (by decide) (by decide)
  · exact c3_not_recognized.2 _ (by decide) (Or.inl ⟨by decide, by decide⟩)

/-- C4: (1) for every polyline of at least 2 points, the measured distance
is the sum of the point-to-point geodesic distances of consecutive points,
accumulated in point order; (2) consequently, a 3-point polyline along a
meridian whose middle point is the midpoint of the endpoints measures
exactly the direct distance between the endpoints. -/
theorem c4_polyline_distance :
    (∀ l : List LatLng, 2 ≤ l.length → calculateDistance l = consecSum l) ∧
    (∀ a b lng : ℝ, -90 ≤ a → a ≤ 90 → -90 ≤ b → b ≤ 90 →
      calculateDistance [⟨a, lng⟩, ⟨(a + b) / 2, lng⟩, ⟨b, lng⟩] =
        distanceTo ⟨a, lng⟩ ⟨b, lng⟩) := by
  constructor
  · intro l _
    exact calculateDistance_eq_consecSum l
  · intro a b lng ha1 ha2 hb1 hb2
    have hsum : calculateDistance [⟨a, lng⟩, ⟨(a + b) / 2, lng⟩, ⟨b, lng⟩] =
        distanceTo ⟨a, lng⟩ ⟨(a + b) / 2, lng⟩ + distanceTo ⟨(a + b) / 2, lng⟩ ⟨b, lng⟩ := by
      rw [calculateDistance_eq_consecSum]
      simp [consecSum]
    have hab : |b - a| ≤ 180 := by
      rw [abs_le]
      constructor <;> linarith
    have hhalf1 : |(a + b) / 2 - a| ≤ 180 := by
      have : (a + b) / 2 - a = (b - a) / 2 := by ring
      rw [this, abs_div]
      have h2 : |(2:ℝ)| = 2 := by norm_num
      rw [h2]
      linarith [abs_nonneg (b - a)]
    have hhalf2 : |b - (a + b) / 2| ≤ 180 := by
      have : b - (a + b) / 2 = (b - a) / 2 := by ring
      rw [this, abs_div]
      have h2 : |(2:ℝ)| = 2 := by norm_num
      rw [h2]
      linarith [abs_nonneg (b - a)]
    rw [hsum, distanceTo_meridian hhalf1, distanceTo_meridian hhalf2,
      distanceTo_meridian hab]
    have e1 : (a + b) / 2 - a = (b - a) / 2 := by ring
    have e2 : b - (a + b) / 2 = (b - a) / 2 := by ring
    rw [e1, e2, abs_div]
    have h2 : |(2:ℝ)| = 2 := by norm_num
    rw [h2]
    ring

/-- C4 witness: the structure part at a concrete 2-point polyline, and the
midpoint part at the meridian points `(0, 5)`, `(0.5, 5)`, `(1, 5)`. -/
theorem c4_polyline_distance_witness :
    2 ≤ ([⟨0, 0⟩, ⟨1, 0⟩] : List LatLng).length ∧
    calculateDistance [⟨0, 0⟩, ⟨1, 0⟩] = consecSum [⟨0, 0⟩, ⟨1, 0⟩] ∧
    calculateDistance [⟨0, 5⟩, ⟨(0 + 1) / 2, 5⟩, ⟨1, 5⟩] = distanceTo ⟨0, 5⟩ ⟨1, 5⟩ := by
  refine ⟨by norm_num, ?_, ?_⟩
  · exact c4_polyline_distance.1 _ (by norm_num)
  · exact c4_polyline_distance.2 0 1 5 (by norm_num) (by norm_num) (by norm_num) (by norm_num)

/-- C5: rectangle measurement refines polygon measurement — the rectangle
area is the same geodesic polygon-area algorithm applied to the four-point
ring `[northEast, (northEast.lat, southWest.lng), southWest,
(southWest.lat, northEast.lng)]` derived from the two corners. -/
theorem c5_rectangle_refines_polygon (ne sw : LatLng) :
    calculateRectangleArea ne sw = geodesicArea (specRectangleRing ne sw) ∧
    calculateRectangleArea ne sw = calculatePolygonArea [specRectangleRing ne sw] :=
  ⟨rfl, rfl⟩

/-- C6, counterexample: measurement of degenerate geometry does not fail —
it returns the substitute value 0.  A polyline of one point measures
distance 0 and a polygon whose ring has two points measures area 0; no
`InvalidShape` failure exists in the code. -/
theorem c6_counterexample_degenerate_returns_zero :
    calculateDistance [latLng0] = 0 ∧
    calculateArea (Layer.polygon [[latLng0, ⟨1, 1⟩]]) = 0 := by
  constructor
  · rfl
  · have h : calculateArea (Layer.polygon [[latLng0, ⟨1, 1⟩]]) =
        geodesicArea [latLng0, ⟨1, 1⟩] := rfl
    rw [h]
    norm_num [geodesicArea]

/-- C6 (amended): measurement of degenerate geometry returns 0 instead of
failing — every polyline of fewer than 2 points measures distance 0, and
every polygon whose first ring has fewer than 3 points measures area 0. -/
theorem c6_degenerate_measures_zero :
    (∀ l : List LatLng, l.length < 2 → calculateDistance l = 0) ∧
    (∀ rings : List (List LatLng), (rings.getD 0 []).length < 3 →
      calculateArea (Layer.polygon rings) = 0) := by
  constructor
  · intro l hl
    rw [calculateDistance]
    have hz : l.length - 1 = 0 := by omega
    rw [hz]
    rfl
  · intro rings hr
    have h : calculateArea (Layer.polygon rings) = geodesicArea (rings.getD 0 []) := rfl
    rw [h]
    have h2 : ¬ 2 < (rings.getD 0 []).length := by omega
    simp only [geodesicArea]
    rw [if_neg h2, abs_zero]

/-- C6 witness: concrete degenerate shapes measuring 0. -/
theorem c6_degenerate_measures_zero_witness :
    ([⟨2, 3⟩] : List LatLng).length < 2 ∧
    calculateDistance [⟨2, 3⟩] = 0 ∧
    (([[⟨4, 4⟩]] : List (List LatLng)).getD 0 []).length < 3 ∧
    calculateArea (Layer.polygon [[⟨4, 4⟩]]) = 0 := by
  refine ⟨by norm_num, ?_, by norm_num, ?_⟩
  · exact c6_degenerate_measures_zero.1 _ (by norm_num)
  · exact c6_degenerate_measures_zero.2 _ (by norm_num)

/-- C7, counterexample: a circle committed while measurement is NOT active
(`enableMeasure = false`) still gets a Measurement attached — the CREATED
handler's guard is `enableMeasure || circle || rectangle`, not
`enableMeasure` alone — contradicting "a Measurement is attached if and
only if the active tool category is measure". -/
theorem c7_counterexample_circle_measured_without_measure :
    (createdMeasurement false (Layer.circle latLng0 1)).isSome = true := rfl

/-- C7 (amended): the CREATED handler attaches the shape with at most one
measurement popup, exactly when the kind is circle or rectangle, or
measurement is enabled and the kind is polyline or polygon; markers never
get a measurement even with measurement enabled. -/
theorem c7_measurement_attachment (em : Bool) (layer : Layer)
    (items : List (Layer × Option (MeasureKind × ℝ))) :
    createdHandler em items layer = items ++ [(layer, createdMeasurement em layer)] ∧
    ((createdMeasurement em layer).isSome = true ↔
      (layerKind layer = .circle ∨ layerKind layer = .rectangle ∨
        (em = true ∧ (layerKind layer = .polyline ∨ layerKind layer = .polygon)))) := by
  refine ⟨rfl, ?_⟩
  cases layer <;> cases em <;> simp [createdMeasurement, layerKind]

/-- C8: on the `layerremove` event, the popup annotation is closed and
detached before the layer's removal from the map, and afterwards no popup,
no map membership and no listeners remain on the removed shape. -/
theorem c8_removal_atomic (st : RemovalState) :
    (layerremoveHandler st).1.popup = none ∧
    (layerremoveHandler st).1.onMap = false ∧
    (layerremoveHandler st).1.listenersActive = false ∧
    popupActsPrecedeRemoval (layerremoveHandler st).2 = true ∧
    (st.popup.isSome = true → RemovalAction.popupClose ∈ (layerremoveHandler st).2 ∧
      RemovalAction.popupDetach ∈ (layerremoveHandler st).2) := by
  rcases st with ⟨p, om, la⟩
  cases p <;> cases om <;>
    simp [layerremoveHandler, popupActsPrecedeRemoval]

/-- C8 witness: the removal handler at a state with an open popup on the
map. -/
theorem c8_removal_atomic_witness :
    RemovalAction.popupClose ∈ (layerremoveHandler ⟨some ⟨true⟩, true, true⟩).2 ∧
    RemovalAction.popupDetach ∈ (layerremoveHandler ⟨some ⟨true⟩, true, true⟩).2 :=
  (c8_removal_atomic ⟨some ⟨true⟩, true, true⟩).2.2.2.2 (by decide)

/-- C9, counterexample: the five shape kinds are not independently
configurable — in every configuration the polyline and polygon tools are
enabled or disabled together (both are gated by `enableMeasure`), so no
configuration enables polyline drawing while disabling polygon drawing. -/
theorem c9_counterexample_kinds_not_independent :
    drawToolEnabled ⟨false, false⟩ .polyline = drawToolEnabled ⟨false, false⟩ .polygon ∧
    drawToolEnabled ⟨false, true⟩ .polyline = drawToolEnabled ⟨false, true⟩ .polygon ∧
    drawToolEnabled ⟨true, false⟩ .polyline = drawToolEnabled ⟨true, false⟩ .polygon ∧
    drawToolEnabled ⟨true, true⟩ .polyline = drawToolEnabled ⟨true, true⟩ .polygon := by
  decide

/-- C9 (amended): enablement is controlled by two flags, not five —
`enableMeasure` gates polyline and polygon, `enableDraw` gates circle,
marker and rectangle, circlemarker is always disabled (a disabled kind's
tool is simply not offered, so no created event arises for it); the
CREATED handler itself never rejects: any created layer is added to the
shape set. -/
theorem c9_two_flag_gating (c : DrawConfig) :
    drawToolEnabled c .polyline = c.enableMeasure ∧
    drawToolEnabled c .polygon = c.enableMeasure ∧
    drawToolEnabled c .circle = c.enableDraw ∧
    drawToolEnabled c .marker = c.enableDraw ∧
    drawToolEnabled c .rectangle = c.enableDraw ∧
    drawToolEnabled c .circlemarker = false ∧
    (∀ (em : Bool) (items : List (Layer × Option (MeasureKind × ℝ))) (layer : Layer),
      createdHandler em items layer = items ++ [(layer, createdMeasurement em layer)]) :=
  ⟨rfl, rfl, rfl, rfl, rfl, rfl, fun _ _ _ => rfl⟩

/-- C10, counterexample: the parser performs no range validation — the
out-of-range pair `"100,200"` (latitude 100 > 90, longitude 200 > 180) is
accepted and returned verbatim as a coordinate. -/
theorem c10_counterexample_out_of_range_accepted :
    parseCoordinates "100,200" = some ⟨some 100, some 200⟩ ∧ ¬((100 : ℚ) ≤ 90) := by
  constructor
  · have hm : mrun decPairM "100,200".data =
        some (['1', '0', '0'], ['2', '0', '0']) := by decide
    have e1 : parseFloatQ ['1', '0', '0'] = 100 := by
      rw [parseFloatQ_digits (by decide) (by simp)]
      rfl
    have e2 : parseFloatQ ['2', '0', '0'] = 200 := by
      rw [parseFloatQ_digits (by decide) (by simp)]
      rfl
    simp only [parseCoordinates, parseCoordinatesL, hm, e1, e2]
  · norm_num

/-- C10 (amended): the parser guarantees only grammar membership, not the
data-model ranges — for every well-formed decimal pair, in range or not,
`parseCoordinates` succeeds and returns the literal values. -/
theorem c10_no_range_validation (a b : DecLit) (k : ℕ) (ha : a.WF) (hb : b.WF) :
    parseCoordinatesL (renderDecPair a b k) = some ⟨some a.val, some b.val⟩ :=
  parseCoordinatesL_decPair k ha hb

/-- C10 witness: the out-of-range rendered pair `"100,  200"` parses to
`(100, 200)`. -/
theorem c10_no_range_validation_witness :
    (DecLit.mk false ['1', '0', '0'] none).WF ∧
    (DecLit.mk false ['2', '0', '0'] none).WF ∧
    parseCoordinatesL
      (renderDecPair (DecLit.mk false ['1', '0', '0'] none)
        (DecLit.mk false ['2', '0', '0'] none) 2) =
      some ⟨some (DecLit.mk false ['1', '0', '0'] none).val,
            some (DecLit.mk false ['2', '0', '0'] none).val⟩ := by
  have ha : (DecLit.mk false ['1', '0', '0'] none).WF := ⟨by simp, by decide, by decide⟩
  have hb : (DecLit.mk false ['2', '0', '0'] none).WF := ⟨by simp, by decide, by decide⟩
  exact ⟨ha, hb, c10_no_range_validation _ _ 2 ha hb⟩
